import Mathlib

/-!
Verification development for the training control loop and decode loop of
`neuralnetworks/las_net.py` (class `Nnet`, methods `train` and `decode`).

The training loop is embedded as a small-step state machine: one call of
`loopIter` is one iteration of the `while step < num_steps` loop, and
`runLoop` iterates it with explicit fuel.  External collaborators are
modelled as follows:

* the Batch Source (`dispenser`) keeps a cursor; `get_batch` advances it by
  one, `return_batch` rewinds it by one, `skip_batch` advances it by one
  (modelled from the spec, the dispenser implementation is not part of the
  sources under study);
* the Training Session (`trainer`) is observed through its call trace: every
  `update`, `evaluate`, `halve_learning_rate`, `save_trainer` and
  `restore_trainer` call is recorded as an `Event`;
* evaluation results and losses come from oracles `verr`, `vloss`
  (indexed by the number of `evaluate` calls so far) and `uloss`
  (indexed by the number of `update` calls so far); errors and losses are
  modelled as integers since the loop only compares and stores them.

Lists that the Python code builds with `append` are grown at the tail, so a
trace read left to right is chronological.
-/

namespace LasNet

/-- Observable calls made by the training loop on its collaborators.
`saveStep n` is `trainer.save_trainer(savedir + '/training/step' + str(n))`,
`saveValidated` is a save to `savedir + '/validation/validated'`,
`restoreStep n` and `restoreValidated` are the corresponding restores, and
`saveFinal` is `trainer.save_model(savedir + '/final')`. -/
inductive Event where
  | getBatch : Event
  | returnBatch : Event
  | skipBatch : Event
  | update : Event
  | evaluate : Event
  | halveLR : Event
  | saveValidated : Event
  | restoreValidated : Event
  | saveFinal : Event
  | saveStep : Nat → Event
  | restoreStep : Nat → Event
deriving DecidableEq

/-- Configuration options of `Nnet.train` read from `self.net_conf`.
`valid_batches` keeps its sign (the code tests `int(...) > 0`); counts and
frequencies are naturals.  `valid_adapt` is the test
`self.net_conf['valid_adapt'] == 'True'`, and `num_batches` is
`dispenser.num_batches` as read after `dispenser.split()`. -/
structure Config where
  valid_batches : Int
  num_epochs : Nat
  num_batches : Nat
  starting_step : Nat
  valid_frequency : Nat
  valid_adapt : Bool
  valid_retries : Nat
  check_freq : Nat
deriving DecidableEq

/-- Total number of steps, `num_steps = dispenser.num_batches * num_epochs`. -/
def numSteps (cfg : Config) : Nat := cfg.num_batches * cfg.num_epochs

/-- Validation is enabled when `int(net_conf['valid_batches']) > 0`
(`val_data is not None`). -/
def validEnabled (cfg : Config) : Prop := 0 < cfg.valid_batches

instance (cfg : Config) : Decidable (validEnabled cfg) := by
  unfold validEnabled; infer_instance

/-- Modelled from the spec: the Batch Source's `get_batch` advances the
cursor by one batch. -/
def get_batch_cursor (c : Nat) : Nat := c + 1

/-- Modelled from the spec: the Batch Source's `return_batch` rewinds the
cursor by one batch. -/
def return_batch_cursor (c : Nat) : Nat := c - 1

/-- Apply `return_batch` to the cursor `k` times, as the rollback loop
`for _ in range(step - validation_step): dispenser.return_batch()` does. -/
def returnBatches : Nat → Nat → Nat
  | 0, c => c
  | k + 1, c => returnBatches k (return_batch_cursor c)

/-- Mutable state of one run of `Nnet.train`: the local variables of the
loop (`step`, `validation_error`, `validation_step`, `num_retries`, the
three logs), the Batch Source cursor, the oracle indices (`evals` counts
`trainer.evaluate` calls, `updates` counts `trainer.update` calls) and the
chronological trace of collaborator calls. -/
structure TrainState where
  step : Nat
  validation_error : Int
  validation_step : Nat
  num_retries : Nat
  cursor : Nat
  evals : Nat
  updates : Nat
  loss_lst : List (Nat × Int)
  val_loss_lst : List (Nat × Int)
  val_error_list : List (Nat × Int)
  events : List Event
deriving DecidableEq

/-- Signal of one loop iteration: `brk` when the iteration executed the
`break` statement (validation retries exhausted), `cont` otherwise. -/
inductive Signal where
  | cont : Signal
  | brk : Signal
deriving DecidableEq

/-- The checkpoint trigger at the bottom of the loop body:
`if step % check_freq == 0: trainer.save_trainer(.../training/step<step>)`. -/
def checkpointStep (cfg : Config) (s : TrainState) : TrainState :=
  if s.step % cfg.check_freq = 0 then
    { s with events := s.events ++ [Event.saveStep s.step] }
  else s

/-- One iteration of the training loop body (`while step < num_steps`):
fetch a batch, update the model, increment `step`, run validation when
triggered (with the adaptive-rollback machine when `valid_adapt`), and
run the checkpoint trigger unless the iteration ended in `continue` or
`break`. -/
def loopIter (cfg : Config) (verr vloss uloss : Nat → Int) (s : TrainState) :
    TrainState × Signal :=
  let s1 : TrainState :=
    { s with cursor := get_batch_cursor s.cursor,
             events := s.events ++ [Event.getBatch] }
  let s2 : TrainState :=
    { s1 with updates := s1.updates + 1,
              loss_lst := s1.loss_lst ++ [(s1.step, uloss s1.updates)],
              events := s1.events ++ [Event.update] }
  let step' := s2.step + 1
  let s3 : TrainState := { s2 with step := step' }
  if step' % cfg.valid_frequency = 0 ∧ validEnabled cfg then
    let e := verr s3.evals
    let s4 : TrainState :=
      { s3 with evals := s3.evals + 1,
                val_error_list := s3.val_error_list ++ [(step', e)],
                val_loss_lst := s3.val_loss_lst ++ [(step', vloss s3.evals)],
                events := s3.events ++ [Event.evaluate] }
    if cfg.valid_adapt then
      if e > s4.validation_error then
        let s5 : TrainState :=
          { s4 with
              cursor := returnBatches (step' - s4.validation_step) s4.cursor,
              events := s4.events
                ++ List.replicate (step' - s4.validation_step) Event.returnBatch
                ++ [Event.restoreValidated, Event.halveLR, Event.saveValidated],
              step := s4.validation_step }
        if s5.num_retries = cfg.valid_retries then
          (s5, Signal.brk)
        else
          ({ s5 with num_retries := s5.num_retries + 1 }, Signal.cont)
      else
        let s5 : TrainState :=
          { s4 with validation_error := e,
                    validation_step := step',
                    num_retries := 0,
                    events := s4.events ++ [Event.saveValidated] }
        (checkpointStep cfg s5, Signal.cont)
    else
      (checkpointStep cfg s4, Signal.cont)
  else
    (checkpointStep cfg s3, Signal.cont)

/-- State at entry of the training loop: the validation set is drawn
(`valid_batches` many `get_batch` calls when validation is enabled), the
dispenser is split (the training cursor starts at position 0; modelled from
the spec), `step` starts at `starting_step`, the cursor is advanced by
`starting_step` `skip_batch` calls, the trainer is restored from the
step-tagged checkpoint when `starting_step > 0`, and when validation is
enabled one initial evaluation establishes `validation_error`,
`validation_step`, `num_retries = 0` and saves the first `validated`
checkpoint. -/
def initState (cfg : Config) (verr vloss : Nat → Int) : TrainState :=
  let ev0 : List Event :=
    if validEnabled cfg then
      List.replicate cfg.valid_batches.toNat Event.getBatch
    else []
  let ev1 := ev0 ++ List.replicate cfg.starting_step Event.skipBatch
  let ev2 :=
    if 0 < cfg.starting_step then ev1 ++ [Event.restoreStep cfg.starting_step]
    else ev1
  if validEnabled cfg then
    { step := cfg.starting_step,
      validation_error := verr 0,
      validation_step := cfg.starting_step,
      num_retries := 0,
      cursor := cfg.starting_step,
      evals := 1,
      updates := 0,
      loss_lst := [],
      val_loss_lst := [(cfg.starting_step, vloss 0)],
      val_error_list := [(cfg.starting_step, verr 0)],
      events := ev2 ++ [Event.evaluate, Event.saveValidated] }
  else
    { step := cfg.starting_step,
      validation_error := 0,
      validation_step := cfg.starting_step,
      num_retries := 0,
      cursor := cfg.starting_step,
      evals := 0,
      updates := 0,
      loss_lst := [],
      val_loss_lst := [],
      val_error_list := [],
      events := ev2 }

/-- Run the training loop with explicit fuel; `none` means the fuel was
exhausted before the loop finished.  The loop exits normally when
`step < num_steps` fails, and early when an iteration signals `brk`. -/
def runLoop (cfg : Config) (verr vloss uloss : Nat → Int) :
    Nat → TrainState → Option TrainState
  | 0, _ => none
  | fuel + 1, s =>
    if s.step < numSteps cfg then
      match loopIter cfg verr vloss uloss s with
      | (s', Signal.brk) => some s'
      | (s', Signal.cont) => runLoop cfg verr vloss uloss fuel s'
    else some s

/-- A whole run of `Nnet.train`: setup, the loop, and the teardown that
saves the `final` model (the logs are then serialized from the state). -/
def train (cfg : Config) (verr vloss uloss : Nat → Int) (fuel : Nat) :
    Option TrainState :=
  (runLoop cfg verr vloss uloss fuel (initState cfg verr vloss)).map
    (fun s => { s with events := s.events ++ [Event.saveFinal] })

/-- States reachable during a run: the loop-entry state, and the result of
any iteration taken from a reachable state while the loop guard holds. -/
inductive Reachable (cfg : Config) (verr vloss uloss : Nat → Int) :
    TrainState → Prop where
  | init : Reachable cfg verr vloss uloss (initState cfg verr vloss)
  | step : ∀ s, Reachable cfg verr vloss uloss s → s.step < numSteps cfg →
      Reachable cfg verr vloss uloss (loopIter cfg verr vloss uloss s).1

/-!
The decode loop of `Nnet.decode`.  The Utterance Reader is modelled from
the spec as the finite list of `(utt_id, utt_mat)` pairs it yields before
`get_utt` returns `looped = True`; the call returning `looped = True`
carries the sentinel utterance, which the loop must not process.  The
single-utterance decoding computation `decoder(utt_mat)` is an opaque
function `dec`; the `nbests` dictionary is modelled as a partial map and
the matrices passed to `dec` are collected in order.
-/

/-- The body of the `while True` loop of `Nnet.decode`: when the reader
yields `(i, m)` with `looped = False`, store `nbests[i] = dec m` and record
that `m` was decoded; when `looped = True` (the utterance list is
exhausted), `break` without processing the sentinel utterance. -/
def decodeLoop {α β γ : Type} [DecidableEq α] (dec : β → γ) :
    List (α × β) → (α → Option γ) → List β → ((α → Option γ) × List β)
  | [], nbests, processed => (nbests, processed)
  | (i, m) :: rest, nbests, processed =>
      decodeLoop dec rest (fun a => if a = i then some (dec m) else nbests a)
        (processed ++ [m])

/-- A whole run of `Nnet.decode`: start from the empty dictionary and
process the reader's utterances until it wraps.  Returns the `nbests`
dictionary and the list of matrices fed to the decoding computation. -/
def decode {α β γ : Type} [DecidableEq α] (dec : β → γ) (utts : List (α × β)) :
    (α → Option γ) × List β :=
  decodeLoop dec utts (fun _ => none) []

/-- The state produced by the rollback branch, before the retries test. -/
def rollbackState (verr uloss : Nat → Int) (s : TrainState) : TrainState :=
  { s with step := s.validation_step,
           cursor := returnBatches (s.step + 1 - s.validation_step)
             (get_batch_cursor s.cursor),
           updates := s.updates + 1,
           evals := s.evals + 1,
           loss_lst := s.loss_lst ++ [(s.step, uloss s.updates)],
           val_error_list := s.val_error_list ++ [(s.step + 1, verr s.evals)],
           events := s.events
             ++ [Event.getBatch, Event.update, Event.evaluate]
             ++ List.replicate (s.step + 1 - s.validation_step)
                 Event.returnBatch
             ++ [Event.restoreValidated, Event.halveLR, Event.saveValidated] }

/-- Invariant of the loop state: the last accepted validation step never
lies ahead of the current step, the retry counter stays within the budget,
the Batch Source cursor tracks the step counter one-for-one, the step
counter stays within `num_steps` (when the resume point itself does), and
every due step-tagged checkpoint beyond the resume point has been saved. -/
def Inv (cfg : Config) (s : TrainState) : Prop :=
  s.validation_step ≤ s.step ∧
  s.num_retries ≤ cfg.valid_retries ∧
  s.cursor = s.step ∧
  (cfg.starting_step ≤ numSteps cfg → s.step ≤ numSteps cfg) ∧
  (∀ N, N % cfg.check_freq = 0 → cfg.starting_step < N → N ≤ s.step →
    Event.saveStep N ∈ s.events)

/-- Error oracle whose k-th evaluation result is k: the validation error
strictly worsens at every evaluation after the first. -/
def errInc : Nat → Int := fun k => (k : Int)

/-- Oracle returning 0 at every call. -/
def constZero : Nat → Int := fun _ => 0

/-- One validation batch, 2 training batches, 1 epoch, validation every
step, adaptive rollback off. -/
def cfgNoAdapt : Config := ⟨1, 1, 2, 0, 1, false, 3, 5⟩

/-- One validation batch, validation every step, adaptive rollback on with
a retry budget of 0: the first regression exhausts the budget. -/
def cfgRoll : Config := ⟨1, 1, 2, 0, 1, true, 0, 5⟩

/-- One validation batch, validation every step, adaptive rollback on with
a retry budget of 3. -/
def cfgAcc : Config := ⟨1, 1, 2, 0, 1, true, 3, 5⟩

/-- Validation disabled, one step in total, checkpoint every step. -/
def cfgCheck1 : Config := ⟨0, 1, 1, 0, 1, false, 3, 1⟩

/-- Validation disabled, two steps in total, checkpoint every step. -/
def cfgCheck2 : Config := ⟨0, 1, 2, 0, 1, false, 3, 1⟩

/-- Validation disabled with `starting_step = 2` but `num_steps = 1`: the
loop body never runs. -/
def cfgResumeHigh : Config := ⟨0, 1, 1, 2, 1, false, 3, 1⟩

/-- Validation disabled with `starting_step = 2` but `num_steps = 1`,
adaptive options set, for the disabled-validation claim. -/
def cfgResumeHigh2 : Config := ⟨0, 1, 1, 2, 1, true, 3, 1⟩

/-- Validation disabled, 3 batches and 2 epochs, resuming from step 1. -/
def cfgNoValid : Config := ⟨0, 2, 3, 1, 2, true, 5, 2⟩

/-!
Helper lemmas.  First the arithmetic of the modelled Batch Source cursor,
then one characterization lemma per branch of the loop body.
-/

theorem returnBatches_eq_sub (k c : Nat) : returnBatches k c = c - k := by
  induction k generalizing c with
  | zero => simp [returnBatches]
  | succ n ih =>
      simp [returnBatches, return_batch_cursor, ih, Nat.sub_sub, Nat.add_comm]

/-- The events appended by the checkpoint trigger. -/
theorem checkpointStep_events (cfg : Config) (s : TrainState) :
    (checkpointStep cfg s).events =
      s.events ++
        (if s.step % cfg.check_freq = 0 then [Event.saveStep s.step] else []) := by
  unfold checkpointStep
  by_cases h : s.step % cfg.check_freq = 0 <;> simp [h]

/-- The checkpoint trigger changes nothing but the event trace. -/
theorem checkpointStep_fields (cfg : Config) (s : TrainState) :
    (checkpointStep cfg s).step = s.step ∧
      (checkpointStep cfg s).validation_error = s.validation_error ∧
      (checkpointStep cfg s).validation_step = s.validation_step ∧
      (checkpointStep cfg s).num_retries = s.num_retries ∧
      (checkpointStep cfg s).cursor = s.cursor ∧
      (checkpointStep cfg s).evals = s.evals ∧
      (checkpointStep cfg s).updates = s.updates ∧
      (checkpointStep cfg s).loss_lst = s.loss_lst ∧
      (checkpointStep cfg s).val_loss_lst = s.val_loss_lst ∧
      (checkpointStep cfg s).val_error_list = s.val_error_list := by
  unfold checkpointStep
  by_cases h : s.step % cfg.check_freq = 0 <;> simp [h]

/-- Branch characterization: no validation trigger this iteration. -/
theorem loopIter_no_valid (cfg : Config) (verr vloss uloss : Nat → Int)
    (s : TrainState)
    (h : ¬ ((s.step + 1) % cfg.valid_frequency = 0 ∧ validEnabled cfg)) :
    loopIter cfg verr vloss uloss s =
      (checkpointStep cfg
        { s with step := s.step + 1,
                 cursor := get_batch_cursor s.cursor,
                 updates := s.updates + 1,
                 loss_lst := s.loss_lst ++ [(s.step, uloss s.updates)],
                 events := s.events ++ [Event.getBatch, Event.update] },
       Signal.cont) := by
  simp only [loopIter]
  rw [if_neg h]
  simp

/-- Branch characterization: validation trigger, adaptive rollback off. -/
theorem loopIter_no_adapt (cfg : Config) (verr vloss uloss : Nat → Int)
    (s : TrainState)
    (htrig : (s.step + 1) % cfg.valid_frequency = 0) (hval : validEnabled cfg)
    (hadapt : cfg.valid_adapt = false) :
    loopIter cfg verr vloss uloss s =
      (checkpointStep cfg
        { s with step := s.step + 1,
                 cursor := get_batch_cursor s.cursor,
                 updates := s.updates + 1,
                 evals := s.evals + 1,
                 loss_lst := s.loss_lst ++ [(s.step, uloss s.updates)],
                 val_error_list :=
                   s.val_error_list ++ [(s.step + 1, verr s.evals)],
                 val_loss_lst :=
                   s.val_loss_lst ++ [(s.step + 1, vloss s.evals)],
                 events := s.events
                   ++ [Event.getBatch, Event.update, Event.evaluate] },
       Signal.cont) := by
  simp only [loopIter]
  rw [if_pos ⟨htrig, hval⟩]
  simp [hadapt]

/-- Branch characterization: validation trigger, adaptive rollback on,
current error not worse — the accept branch. -/
theorem loopIter_accept (cfg : Config) (verr vloss uloss : Nat → Int)
    (s : TrainState)
    (htrig : (s.step + 1) % cfg.valid_frequency = 0) (hval : validEnabled cfg)
    (hadapt : cfg.valid_adapt = true)
    (hle : ¬ verr s.evals > s.validation_error) :
    loopIter cfg verr vloss uloss s =
      (checkpointStep cfg
        { s with step := s.step + 1,
                 cursor := get_batch_cursor s.cursor,
                 updates := s.updates + 1,
                 evals := s.evals + 1,
                 validation_error := verr s.evals,
                 validation_step := s.step + 1,
                 num_retries := 0,
                 loss_lst := s.loss_lst ++ [(s.step, uloss s.updates)],
                 val_error_list :=
                   s.val_error_list ++ [(s.step + 1, verr s.evals)],
                 val_loss_lst :=
                   s.val_loss_lst ++ [(s.step + 1, vloss s.evals)],
                 events := s.events
                   ++ [Event.getBatch, Event.update, Event.evaluate,
                       Event.saveValidated] },
       Signal.cont) := by
  simp only [loopIter]
  rw [if_pos ⟨htrig, hval⟩]
  simp [hadapt, hle]

/-- Branch characterization: rollback with the retry budget exhausted —
the `break` branch. -/
theorem loopIter_rollback_brk (cfg : Config) (verr vloss uloss : Nat → Int)
    (s : TrainState)
    (htrig : (s.step + 1) % cfg.valid_frequency = 0) (hval : validEnabled cfg)
    (hadapt : cfg.valid_adapt = true)
    (herr : verr s.evals > s.validation_error)
    (hret : s.num_retries = cfg.valid_retries) :
    loopIter cfg verr vloss uloss s =
      ({ rollbackState verr uloss s with
           val_loss_lst := s.val_loss_lst ++ [(s.step + 1, vloss s.evals)] },
       Signal.brk) := by
  simp only [loopIter]
  rw [if_pos ⟨htrig, hval⟩]
  simp [hadapt, herr, hret, rollbackState]

/-- Branch characterization: rollback with retries remaining — the
`continue` branch. -/
theorem loopIter_rollback_cont (cfg : Config) (verr vloss uloss : Nat → Int)
    (s : TrainState)
    (htrig : (s.step + 1) % cfg.valid_frequency = 0) (hval : validEnabled cfg)
    (hadapt : cfg.valid_adapt = true)
    (herr : verr s.evals > s.validation_error)
    (hret : ¬ s.num_retries = cfg.valid_retries) :
    loopIter cfg verr vloss uloss s =
      ({ rollbackState verr uloss s with
           num_retries := s.num_retries + 1,
           val_loss_lst := s.val_loss_lst ++ [(s.step + 1, vloss s.evals)] },
       Signal.cont) := by
  simp only [loopIter]
  rw [if_pos ⟨htrig, hval⟩]
  simp [hadapt, herr, hret, rollbackState]

/-!
The inductive invariant of the training loop.
-/

theorem inv_initState (cfg : Config) (verr vloss : Nat → Int) :
    Inv cfg (initState cfg verr vloss) := by
  unfold Inv initState
  by_cases h : validEnabled cfg <;>
    simp [h] <;>
    exact fun N _ hlt hle => absurd (lt_of_lt_of_le hlt hle) (lt_irrefl _)

/-- Transfer of the invariant through the checkpoint trigger: the trigger
itself discharges the checkpoint obligation at the current step. -/
theorem checkpointStep_inv (cfg : Config) (t : TrainState)
    (h1 : t.validation_step ≤ t.step)
    (h2 : t.num_retries ≤ cfg.valid_retries)
    (h3 : t.cursor = t.step)
    (h4 : t.step ≤ numSteps cfg)
    (h5 : ∀ N, N % cfg.check_freq = 0 → cfg.starting_step < N → N ≤ t.step →
      Event.saveStep N ∈ t.events ∨ N = t.step) :
    Inv cfg (checkpointStep cfg t) := by
  obtain ⟨f1, f2, f3, f4, f5, f6, f7, f8, f9, f10⟩ := checkpointStep_fields cfg t
  refine ⟨by rw [f1, f3]; exact h1, by rw [f4]; exact h2,
    by rw [f1, f5]; exact h3, fun _ => by rw [f1]; exact h4, ?_⟩
  intro N hN hlt hle
  rw [f1] at hle
  rw [checkpointStep_events]
  rcases h5 N hN hlt hle with hmem | hEq
  · exact List.mem_append_left _ hmem
  · subst hEq
    rw [hN]
    simp

theorem loopIter_preserves_inv (cfg : Config) (verr vloss uloss : Nat → Int)
    (s : TrainState) (hinv : Inv cfg s) (hguard : s.step < numSteps cfg) :
    Inv cfg (loopIter cfg verr vloss uloss s).1 := by
  obtain ⟨h1, h2, h3, h4, h5⟩ := hinv
  have hstep1 : s.step + 1 ≤ numSteps cfg := hguard
  have hmemext : ∀ (N : Nat) (t : List Event),
      Event.saveStep N ∈ s.events → Event.saveStep N ∈ s.events ++ t :=
    fun N t hm => List.mem_append_left t hm
  have hsucc : ∀ N : Nat, N ≤ s.step + 1 → N ≤ s.step ∨ N = s.step + 1 :=
    fun N h => Nat.le_succ_iff.mp h
  by_cases hc : (s.step + 1) % cfg.valid_frequency = 0 ∧ validEnabled cfg
  · by_cases ha : cfg.valid_adapt = true
    · by_cases he : verr s.evals > s.validation_error
      · have hroll : Inv cfg (rollbackState verr uloss s) := by
          refine ⟨le_refl _, h2, ?_, fun _ => le_of_lt
            (lt_of_le_of_lt h1 hguard), ?_⟩
          · show returnBatches (s.step + 1 - s.validation_step)
              (get_batch_cursor s.cursor) = s.validation_step
            rw [returnBatches_eq_sub, get_batch_cursor, h3,
              Nat.sub_sub_self (le_trans h1 (Nat.le_succ _))]
          · intro N hN hlt hle
            show Event.saveStep N ∈ s.events ++ _ ++ _ ++ _
            exact List.mem_append_left _ (List.mem_append_left _
              (List.mem_append_left _ (h5 N hN hlt (le_trans hle h1))))
        by_cases hr : s.num_retries = cfg.valid_retries
        · rw [loopIter_rollback_brk cfg verr vloss uloss s hc.1 hc.2 ha he hr]
          obtain ⟨g1, g2, g3, g4, g5⟩ := hroll
          exact ⟨g1, g2, g3, g4, g5⟩
        · rw [loopIter_rollback_cont cfg verr vloss uloss s hc.1 hc.2 ha he hr]
          obtain ⟨g1, g2, g3, g4, g5⟩ := hroll
          refine ⟨g1, ?_, g3, g4, g5⟩
          show s.num_retries + 1 ≤ cfg.valid_retries
          exact Nat.succ_le_of_lt (lt_of_le_of_ne h2 hr)
      · rw [loopIter_accept cfg verr vloss uloss s hc.1 hc.2 ha he]
        refine checkpointStep_inv cfg _ (le_refl _) (Nat.zero_le _)
          (by show get_batch_cursor s.cursor = s.step + 1;
              rw [get_batch_cursor, h3]) hstep1 ?_
        intro N hN hlt hle
        rcases hsucc N hle with hle' | hEq
        · exact Or.inl (hmemext N _ (h5 N hN hlt hle'))
        · exact Or.inr hEq
    · have ha' : cfg.valid_adapt = false := by
        cases hb : cfg.valid_adapt
        · rfl
        · exact absurd hb ha
      rw [loopIter_no_adapt cfg verr vloss uloss s hc.1 hc.2 ha']
      refine checkpointStep_inv cfg _ (le_trans h1 (Nat.le_succ _)) h2
        (by show get_batch_cursor s.cursor = s.step + 1;
            rw [get_batch_cursor, h3]) hstep1 ?_
      intro N hN hlt hle
      rcases hsucc N hle with hle' | hEq
      · exact Or.inl (hmemext N _ (h5 N hN hlt hle'))
      · exact Or.inr hEq
  · rw [loopIter_no_valid cfg verr vloss uloss s hc]
    refine checkpointStep_inv cfg _ (le_trans h1 (Nat.le_succ _)) h2
      (by show get_batch_cursor s.cursor = s.step + 1;
          rw [get_batch_cursor, h3]) hstep1 ?_
    intro N hN hlt hle
    rcases hsucc N hle with hle' | hEq
    · exact Or.inl (hmemext N _ (h5 N hN hlt hle'))
    · exact Or.inr hEq

theorem reachable_inv (cfg : Config) (verr vloss uloss : Nat → Int)
    (s : TrainState) (h : Reachable cfg verr vloss uloss s) : Inv cfg s := by
  induction h with
  | init => exact inv_initState cfg verr vloss
  | step t _ hguard ih => exact loopIter_preserves_inv cfg verr vloss uloss t ih hguard

theorem runLoop_reachable (cfg : Config) (verr vloss uloss : Nat → Int) :
    ∀ (fuel : Nat) (s f : TrainState), Reachable cfg verr vloss uloss s →
      runLoop cfg verr vloss uloss fuel s = some f →
      Reachable cfg verr vloss uloss f := by
  intro fuel
  induction fuel with
  | zero => intro s f _ hrun; exact absurd hrun (by simp [runLoop])
  | succ n ih =>
      intro s f hs hrun
      unfold runLoop at hrun
      by_cases hguard : s.step < numSteps cfg
      · rw [if_pos hguard] at hrun
        have hnext : Reachable cfg verr vloss uloss
            (loopIter cfg verr vloss uloss s).1 := Reachable.step s hs hguard
        rcases hl : loopIter cfg verr vloss uloss s with ⟨s', sig⟩
        rw [hl] at hrun hnext
        cases sig
        · exact ih s' f hnext hrun
        · simp at hrun
          exact hrun ▸ hnext
      · rw [if_neg hguard] at hrun
        simp at hrun
        exact hrun ▸ hs

/-!
Lemmas about the decode loop, generalized over the accumulated dictionary.
-/

theorem decodeLoop_snd {α β γ : Type} [DecidableEq α] (dec : β → γ)
    (l : List (α × β)) :
    ∀ (nb : α → Option γ) (pr : List β),
      (decodeLoop dec l nb pr).2 = pr ++ l.map Prod.snd := by
  induction l with
  | nil => intro nb pr; simp [decodeLoop]
  | cons hd tl ih =>
      intro nb pr
      obtain ⟨i, m⟩ := hd
      simp [decodeLoop, ih]

theorem decodeLoop_not_mem {α β γ : Type} [DecidableEq α] (dec : β → γ)
    (l : List (α × β)) :
    ∀ (nb : α → Option γ) (pr : List β) (a : α), a ∉ l.map Prod.fst →
      (decodeLoop dec l nb pr).1 a = nb a := by
  induction l with
  | nil => intro nb pr a _; rfl
  | cons hd tl ih =>
      intro nb pr a ha
      obtain ⟨i, m⟩ := hd
      simp only [List.map_cons, List.mem_cons, not_or] at ha
      show (decodeLoop dec tl _ _).1 a = nb a
      rw [ih _ _ a ha.2]
      simp [ha.1]

theorem decodeLoop_mem {α β γ : Type} [DecidableEq α] (dec : β → γ)
    (l : List (α × β)) :
    ∀ (nb : α → Option γ) (pr : List β) (a : α), a ∈ l.map Prod.fst →
      ∃ m, (a, m) ∈ l ∧ (decodeLoop dec l nb pr).1 a = some (dec m) := by
  induction l with
  | nil => intro nb pr a ha; exact absurd ha (by simp)
  | cons hd tl ih =>
      intro nb pr a ha
      obtain ⟨i, m⟩ := hd
      by_cases hmem : a ∈ tl.map Prod.fst
      · obtain ⟨m', hm', heq⟩ := ih _ _ a hmem
        exact ⟨m', List.mem_cons_of_mem _ hm', heq⟩
      · have hai : a = i := by
          simp only [List.map_cons, List.mem_cons] at ha
          exact ha.resolve_right hmem
        subst hai
        refine ⟨m, List.mem_cons_self _ _, ?_⟩
        show (decodeLoop dec tl _ _).1 a = some (dec m)
        rw [decodeLoop_not_mem dec tl _ _ a hmem]
        simp

/-!
A run with validation disabled: every iteration takes the plain branch, so
the loop advances one step per update until `step = num_steps`.
-/

theorem initState_events_novalid (cfg : Config) (verr vloss : Nat → Int)
    (hnv : ¬ validEnabled cfg) :
    ∀ ev ∈ (initState cfg verr vloss).events,
      ev = Event.skipBatch ∨ ev = Event.restoreStep cfg.starting_step := by
  intro ev hev
  unfold initState at hev
  rw [if_neg hnv] at hev
  simp only [if_neg hnv] at hev
  by_cases hss : 0 < cfg.starting_step <;>
    simp only [if_pos, if_neg, hss, if_true, if_false] at hev <;>
    [skip; skip] <;>
    first
      | (rcases List.mem_append.mp hev with hin | hin
         · exact Or.inl (List.eq_of_mem_replicate
             (by simpa using hin))
         · simp at hin
           exact Or.inr hin)
      | exact Or.inl (List.eq_of_mem_replicate (by simpa using hev))

theorem runLoop_novalid (cfg : Config) (verr vloss uloss : Nat → Int)
    (hnv : ¬ validEnabled cfg) :
    ∀ (n : Nat) (s : TrainState), numSteps cfg - s.step = n →
      s.step ≤ numSteps cfg →
      ∃ final, runLoop cfg verr vloss uloss (n + 1) s = some final ∧
        final.step = numSteps cfg ∧
        final.updates = s.updates + n ∧
        final.val_error_list = s.val_error_list ∧
        final.val_loss_lst = s.val_loss_lst ∧
        (∀ ev ∈ final.events, ev ∈ s.events ∨ ev = Event.getBatch ∨
          ev = Event.update ∨ ∃ N, ev = Event.saveStep N) := by
  intro n
  induction n with
  | zero =>
      intro s hsub hle
      have hEq : s.step = numSteps cfg := le_antisymm hle (by omega)
      refine ⟨s, ?_, hEq, by omega, rfl, rfl, fun ev hev => Or.inl hev⟩
      unfold runLoop
      rw [if_neg (by omega)]
  | succ n ih =>
      intro s hsub hle
      have hguard : s.step < numSteps cfg := by omega
      have hnc : ¬ ((s.step + 1) % cfg.valid_frequency = 0 ∧ validEnabled cfg) :=
        fun hc => hnv hc.2
      have hiter := loopIter_no_valid cfg verr vloss uloss s hnc
      set s' := (checkpointStep cfg
        { s with step := s.step + 1,
                 cursor := get_batch_cursor s.cursor,
                 updates := s.updates + 1,
                 loss_lst := s.loss_lst ++ [(s.step, uloss s.updates)],
                 events := s.events ++ [Event.getBatch, Event.update] })
        with hs'
      obtain ⟨f1, _, _, _, _, _, f7, _, f9, f10⟩ :=
        checkpointStep_fields cfg
          { s with step := s.step + 1,
                   cursor := get_batch_cursor s.cursor,
                   updates := s.updates + 1,
                   loss_lst := s.loss_lst ++ [(s.step, uloss s.updates)],
                   events := s.events ++ [Event.getBatch, Event.update] }
      obtain ⟨final, hrun, hfs, hfu, hfe, hfl, hfev⟩ :=
        ih s'
          (by rw [hs', f1]; show numSteps cfg - (s.step + 1) = n; omega)
          (by rw [hs', f1]; show s.step + 1 ≤ numSteps cfg; omega)
      refine ⟨final, ?_, hfs, ?_, ?_, ?_, ?_⟩
      · unfold runLoop
        rw [if_pos hguard, hiter]
        exact hrun
      · rw [hfu, hs', f7]; show s.updates + 1 + n = s.updates + (n + 1); omega
      · rw [hfe, hs', f10]
      · rw [hfl, hs', f9]
      · intro ev hev
        rcases hfev ev hev with hin | hrest
        · rw [hs', checkpointStep_events] at hin
          rcases List.mem_append.mp hin with hin2 | hin2
          · rcases List.mem_append.mp hin2 with hin3 | hin3
            · exact Or.inl hin3
            · simp at hin3
              rcases hin3 with h | h
              · exact Or.inr (Or.inl h)
              · exact Or.inr (Or.inr (Or.inl h))
          · by_cases hcf : (s.step + 1) % cfg.check_freq = 0
            · rw [if_pos hcf] at hin2
              simp at hin2
              exact Or.inr (Or.inr (Or.inr ⟨s.step + 1, hin2⟩))
            · rw [if_neg hcf] at hin2
              exact absurd hin2 (List.not_mem_nil ev)
        · exact Or.inr hrest

/-!
The claims.
-/

/-- C1, counterexample: with `valid_adapt` disabled, on the validation
trigger at step 1 (current error 1, previous best 0) the code updates
neither `validation_step` (it stays 0, not 1) nor `validation_error` (it
stays 0, not 1), and persists no second `validated` checkpoint (the trace
holds exactly the one from the initial validation): the whole bookkeeping
block sits inside the `valid_adapt == 'True'` branch and is skipped. -/
theorem claim_C1_counterexample :
    ¬ ((loopIter cfgNoAdapt errInc constZero constZero
          (initState cfgNoAdapt errInc constZero)).1.validation_step = 1 ∨
       (loopIter cfgNoAdapt errInc constZero constZero
          (initState cfgNoAdapt errInc constZero)).1.validation_error = 1 ∨
       List.count Event.saveValidated
         (loopIter cfgNoAdapt errInc constZero constZero
            (initState cfgNoAdapt errInc constZero)).1.events = 2) := by
  decide

/-- C1, amended: on a validation trigger with adaptive rollback disabled,
the loop appends the validation record but leaves `validation_error`,
`validation_step` and `num_retries` unchanged, persists no `validated`
checkpoint, and returns to training (falling through to the checkpoint
trigger). -/
theorem claim_C1_disabled_adapt_no_bookkeeping (cfg : Config)
    (verr vloss uloss : Nat → Int) (s : TrainState)
    (htrig : (s.step + 1) % cfg.valid_frequency = 0) (hval : validEnabled cfg)
    (hadapt : cfg.valid_adapt = false) :
    (loopIter cfg verr vloss uloss s).1.val_error_list =
        s.val_error_list ++ [(s.step + 1, verr s.evals)] ∧
      (loopIter cfg verr vloss uloss s).1.val_loss_lst =
        s.val_loss_lst ++ [(s.step + 1, vloss s.evals)] ∧
      (loopIter cfg verr vloss uloss s).1.validation_error =
        s.validation_error ∧
      (loopIter cfg verr vloss uloss s).1.validation_step =
        s.validation_step ∧
      (loopIter cfg verr vloss uloss s).1.num_retries = s.num_retries ∧
      (loopIter cfg verr vloss uloss s).2 = Signal.cont ∧
      List.count Event.saveValidated
          (loopIter cfg verr vloss uloss s).1.events =
        List.count Event.saveValidated s.events := by
  rw [loopIter_no_adapt cfg verr vloss uloss s htrig hval hadapt]
  by_cases hcf : (s.step + 1) % cfg.check_freq = 0 <;>
    simp [checkpointStep, hcf, List.count_append]

/-- C1, witness for the amended claim at a concrete trigger. -/
theorem claim_C1_witness :
    (loopIter cfgNoAdapt errInc constZero constZero
      (initState cfgNoAdapt errInc constZero)).1.validation_step = 0 := by
  have h := claim_C1_disabled_adapt_no_bookkeeping cfgNoAdapt errInc constZero
    constZero (initState cfgNoAdapt errInc constZero)
    (by decide) (by decide) rfl
  exact h.2.2.2.1.trans (by decide)

/-- C2: on a validation trigger with adaptive rollback enabled and
`current_error > validation_error`, the loop rewinds the Batch Source by
`step - validation_step` `return_batch` calls, restores the Training
Session from the `validated` checkpoint, halves the learning rate,
re-persists the `validated` checkpoint — in exactly this order — and sets
`step := validation_step`. -/
theorem claim_C2_rollback_sequence (cfg : Config)
    (verr vloss uloss : Nat → Int) (s : TrainState)
    (htrig : (s.step + 1) % cfg.valid_frequency = 0) (hval : validEnabled cfg)
    (hadapt : cfg.valid_adapt = true)
    (herr : verr s.evals > s.validation_error) :
    (loopIter cfg verr vloss uloss s).1.events =
        s.events ++ [Event.getBatch, Event.update, Event.evaluate]
          ++ List.replicate (s.step + 1 - s.validation_step)
              Event.returnBatch
          ++ [Event.restoreValidated, Event.halveLR, Event.saveValidated] ∧
      (loopIter cfg verr vloss uloss s).1.step = s.validation_step ∧
      (loopIter cfg verr vloss uloss s).1.cursor =
        returnBatches (s.step + 1 - s.validation_step)
          (get_batch_cursor s.cursor) ∧
      (loopIter cfg verr vloss uloss s).1.val_error_list =
        s.val_error_list ++ [(s.step + 1, verr s.evals)] := by
  by_cases hret : s.num_retries = cfg.valid_retries
  · rw [loopIter_rollback_brk cfg verr vloss uloss s htrig hval hadapt herr
      hret]
    simp [rollbackState]
  · rw [loopIter_rollback_cont cfg verr vloss uloss s htrig hval hadapt herr
      hret]
    simp [rollbackState]

/-- C2, witness: concrete regression at step 1 with `validation_step = 0`. -/
theorem claim_C2_witness :
    (loopIter cfgRoll errInc constZero constZero
      (initState cfgRoll errInc constZero)).1.step = 0 := by
  have h := claim_C2_rollback_sequence cfgRoll errInc constZero constZero
    (initState cfgRoll errInc constZero) (by decide) (by decide) rfl
    (by decide)
  exact h.2.1.trans (by decide)

/-- C4: on a validation trigger with adaptive rollback enabled and
`current_error ≤ validation_error` (improvement or exact tie), the result
is accepted: `validation_error := current_error`,
`validation_step := step`, `num_retries := 0`, a `validated` checkpoint is
persisted, and training continues with no rollback action (no cursor
rewind, no restore, `step` keeps its incremented value). -/
theorem claim_C4_accept_on_tie_or_improvement (cfg : Config)
    (verr vloss uloss : Nat → Int) (s : TrainState)
    (htrig : (s.step + 1) % cfg.valid_frequency = 0) (hval : validEnabled cfg)
    (hadapt : cfg.valid_adapt = true)
    (hle : verr s.evals ≤ s.validation_error) :
    (loopIter cfg verr vloss uloss s).1.validation_error = verr s.evals ∧
      (loopIter cfg verr vloss uloss s).1.validation_step = s.step + 1 ∧
      (loopIter cfg verr vloss uloss s).1.num_retries = 0 ∧
      (loopIter cfg verr vloss uloss s).1.step = s.step + 1 ∧
      (loopIter cfg verr vloss uloss s).2 = Signal.cont ∧
      (loopIter cfg verr vloss uloss s).1.cursor =
        get_batch_cursor s.cursor ∧
      (loopIter cfg verr vloss uloss s).1.events =
        s.events ++ [Event.getBatch, Event.update, Event.evaluate,
            Event.saveValidated]
          ++ (if (s.step + 1) % cfg.check_freq = 0 then
                [Event.saveStep (s.step + 1)] else []) := by
  rw [loopIter_accept cfg verr vloss uloss s htrig hval hadapt
    (not_lt.mpr hle)]
  by_cases hcf : (s.step + 1) % cfg.check_freq = 0 <;>
    simp [checkpointStep, hcf]

/-- C4, witness: a tie (current error 0, previous best 0) is accepted. -/
theorem claim_C4_witness :
    (loopIter cfgAcc constZero constZero constZero
        (initState cfgAcc constZero constZero)).1.validation_step = 1 ∧
      (loopIter cfgAcc constZero constZero constZero
        (initState cfgAcc constZero constZero)).1.num_retries = 0 := by
  have h := claim_C4_accept_on_tie_or_improvement cfgAcc constZero constZero
    constZero (initState cfgAcc constZero constZero)
    (by decide) (by decide) rfl (by decide)
  exact ⟨h.2.1.trans (by decide), h.2.2.1⟩

/-- C3: in every run `num_retries` never exceeds `valid_retries`; on a
rollback with `num_retries == valid_retries` the iteration executes
`break` (the loop immediately returns its state, performing no further
updates) and the step counter stays within `num_steps`; on a rollback
below the limit `num_retries` is incremented and the loop continues with
`step` reset to `validation_step` (not incremented). -/
theorem claim_C3_retries_bounded (cfg : Config) (verr vloss uloss : Nat → Int) :
    (∀ s, Reachable cfg verr vloss uloss s →
      s.num_retries ≤ cfg.valid_retries) ∧
    (∀ s, Reachable cfg verr vloss uloss s → s.step < numSteps cfg →
      (s.step + 1) % cfg.valid_frequency = 0 → validEnabled cfg →
      cfg.valid_adapt = true → verr s.evals > s.validation_error →
      ((s.num_retries = cfg.valid_retries →
          (loopIter cfg verr vloss uloss s).2 = Signal.brk ∧
          (∀ fuel, runLoop cfg verr vloss uloss (fuel + 1) s =
            some (loopIter cfg verr vloss uloss s).1) ∧
          (loopIter cfg verr vloss uloss s).1.step ≤ numSteps cfg) ∧
        (s.num_retries ≠ cfg.valid_retries →
          (loopIter cfg verr vloss uloss s).2 = Signal.cont ∧
          (loopIter cfg verr vloss uloss s).1.num_retries =
            s.num_retries + 1 ∧
          (loopIter cfg verr vloss uloss s).1.step = s.validation_step))) := by
  constructor
  · intro s hs
    exact (reachable_inv cfg verr vloss uloss s hs).2.1
  · intro s hs hguard htrig hval hadapt herr
    have hinv := reachable_inv cfg verr vloss uloss s hs
    constructor
    · intro hret
      refine ⟨?_, ?_, ?_⟩
      · rw [loopIter_rollback_brk cfg verr vloss uloss s htrig hval hadapt
          herr hret]
      · intro fuel
        unfold runLoop
        rw [if_pos hguard, loopIter_rollback_brk cfg verr vloss uloss s htrig
          hval hadapt herr hret]
      · rw [loopIter_rollback_brk cfg verr vloss uloss s htrig hval hadapt
          herr hret]
        show s.validation_step ≤ numSteps cfg
        exact le_of_lt (lt_of_le_of_lt hinv.1 hguard)
    · intro hret
      rw [loopIter_rollback_cont cfg verr vloss uloss s htrig hval hadapt
        herr hret]
      exact ⟨rfl, rfl, rfl⟩

/-- C3, witness: with a retry budget of 0, the first regression breaks the
loop from the initial state; the retry bound holds there. -/
theorem claim_C3_witness :
    (initState cfgRoll errInc constZero).num_retries ≤
        cfgRoll.valid_retries ∧
      (loopIter cfgRoll errInc constZero constZero
        (initState cfgRoll errInc constZero)).2 = Signal.brk := by
  have h := claim_C3_retries_bounded cfgRoll errInc constZero constZero
  refine ⟨h.1 _ Reachable.init, ?_⟩
  exact ((h.2 _ Reachable.init (by decide) (by decide) (by decide) rfl
    (by decide)).1 (by decide)).1

/-- C6, counterexample: with `check_freq = 1` and a run ending at step 1,
`N = 0` is a multiple of `check_freq` with `N ≤ final step`, yet no
`training/step0` checkpoint is ever persisted — the trigger only runs
after `step` has been incremented, so step 0 is never checkpointed. -/
theorem claim_C6_counterexample :
    ¬ (∀ final, train cfgCheck1 constZero constZero constZero 2 =
          some final →
        ∀ N, N % cfgCheck1.check_freq = 0 → N ≤ final.step →
          Event.saveStep N ∈ final.events) := by
  intro h
  exact absurd (h _ rfl 0 rfl (Nat.zero_le _)) (by decide)

/-- C6, amended: at the end of every completed training run, a
`training/step<N>` checkpoint has been persisted for every `N` that is a
multiple of `check_freq` with `starting_step < N ≤ final step`; and the
checkpoint trigger appends such a save exactly when
`step mod check_freq == 0` after an update. -/
theorem claim_C6_step_checkpoints (cfg : Config)
    (verr vloss uloss : Nat → Int) (fuel : Nat) (final : TrainState)
    (hrun : train cfg verr vloss uloss fuel = some final) :
    (∀ s, (checkpointStep cfg s).events = s.events ++
        (if s.step % cfg.check_freq = 0 then [Event.saveStep s.step]
         else [])) ∧
      (∀ N, N % cfg.check_freq = 0 → cfg.starting_step < N →
        N ≤ final.step → Event.saveStep N ∈ final.events) := by
  refine ⟨checkpointStep_events cfg, ?_⟩
  obtain ⟨f, hf, hfe⟩ : ∃ f,
      runLoop cfg verr vloss uloss fuel (initState cfg verr vloss) = some f ∧
        final = { f with events := f.events ++ [Event.saveFinal] } := by
    unfold train at hrun
    cases hr : runLoop cfg verr vloss uloss fuel (initState cfg verr vloss)
      with
    | none => rw [hr] at hrun; exact absurd hrun (by simp)
    | some f =>
        rw [hr] at hrun
        simp only [Option.map_some'] at hrun
        exact ⟨f, rfl, (Option.some_injective _ hrun).symm⟩
  have hinv := reachable_inv cfg verr vloss uloss f
    (runLoop_reachable cfg verr vloss uloss fuel _ f Reachable.init hf)
  subst hfe
  intro N h1 h2 h3
  exact List.mem_append_left _ (hinv.2.2.2.2 N h1 h2 h3)

/-- C6, witness: a two-step run with `check_freq = 1` has persisted the
`training/step2` checkpoint at its end. -/
theorem claim_C6_witness :
    Event.saveStep 2 ∈ ((train cfgCheck2 constZero constZero constZero 3).getD
      (initState cfgCheck2 constZero constZero)).events := by
  have h := (claim_C6_step_checkpoints cfgCheck2 constZero constZero constZero
    3 ((train cfgCheck2 constZero constZero constZero 3).getD
      (initState cfgCheck2 constZero constZero)) (by decide)).2
  exact h 2 rfl (by decide) (by decide)

/-- C7: `return_batch` undoes `get_batch` on the Batch Source cursor; in
every reachable state the cursor equals the step counter (so its position
when `validation_step` was accepted was `validation_step` itself); and a
rollback leaves the cursor at exactly `validation_step`, the position it
had at the last accepted validation. -/
theorem claim_C7_cursor_roundtrip (cfg : Config)
    (verr vloss uloss : Nat → Int) :
    (∀ c, return_batch_cursor (get_batch_cursor c) = c) ∧
    (∀ s, Reachable cfg verr vloss uloss s → s.cursor = s.step) ∧
    (∀ s, s.validation_step ≤ s.step → s.cursor = s.step →
      (s.step + 1) % cfg.valid_frequency = 0 → validEnabled cfg →
      cfg.valid_adapt = true → verr s.evals > s.validation_error →
      (loopIter cfg verr vloss uloss s).1.cursor = s.validation_step) := by
  refine ⟨fun c => rfl, ?_, ?_⟩
  · intro s hs
    exact (reachable_inv cfg verr vloss uloss s hs).2.2.1
  · intro s hvs hcur htrig hval hadapt herr
    have hgoal : returnBatches (s.step + 1 - s.validation_step)
        (get_batch_cursor s.cursor) = s.validation_step := by
      rw [returnBatches_eq_sub, get_batch_cursor, hcur,
        Nat.sub_sub_self (le_trans hvs (Nat.le_succ _))]
    by_cases hret : s.num_retries = cfg.valid_retries
    · rw [loopIter_rollback_brk cfg verr vloss uloss s htrig hval hadapt herr
        hret]
      exact hgoal
    · rw [loopIter_rollback_cont cfg verr vloss uloss s htrig hval hadapt herr
        hret]
      exact hgoal

/-- C7, witness: round trip at cursor 5, cursor-step agreement at the
initial state, and a concrete rollback returning the cursor to position 0. -/
theorem claim_C7_witness :
    return_batch_cursor (get_batch_cursor 5) = 5 ∧
      (initState cfgRoll errInc constZero).cursor =
        (initState cfgRoll errInc constZero).step ∧
      (loopIter cfgRoll errInc constZero constZero
        (initState cfgRoll errInc constZero)).1.cursor = 0 := by
  have h := claim_C7_cursor_roundtrip cfgRoll errInc constZero constZero
  exact ⟨h.1 5, h.2.1 _ Reachable.init,
    (h.2.2 _ (by decide) (by decide) (by decide) (by decide) rfl
      (by decide)).trans (by decide)⟩

/-- C8, counterexample: with `starting_step = 2` and
`num_steps = num_batches * num_epochs = 1`, the loop-entry state (which the
run reaches) already has `step = 2 > num_steps`, so `step ≤ num_steps`
does not hold at all times. -/
theorem claim_C8_counterexample :
    ¬ (∀ s, Reachable cfgResumeHigh constZero constZero constZero s →
        s.step ≤ numSteps cfgResumeHigh) :=
  fun h => absurd (h _ Reachable.init) (by decide)

/-- C8, amended: `step` starts at `starting_step`; every iteration performs
exactly one optimization update and either increments `step` by exactly one
or (on rollback) resets it to `validation_step`; and provided the resume
point satisfies `starting_step ≤ num_steps`, every reachable state
satisfies `step ≤ num_steps`. -/
theorem claim_C8_step_invariant (cfg : Config)
    (verr vloss uloss : Nat → Int) :
    (initState cfg verr vloss).step = cfg.starting_step ∧
    (∀ s, (loopIter cfg verr vloss uloss s).1.updates = s.updates + 1 ∧
      ((loopIter cfg verr vloss uloss s).1.step = s.step + 1 ∨
        (loopIter cfg verr vloss uloss s).1.step = s.validation_step)) ∧
    (cfg.starting_step ≤ numSteps cfg →
      ∀ s, Reachable cfg verr vloss uloss s → s.step ≤ numSteps cfg) := by
  refine ⟨?_, ?_, ?_⟩
  · unfold initState
    by_cases h : validEnabled cfg <;> simp [h]
  · intro s
    by_cases hc : (s.step + 1) % cfg.valid_frequency = 0 ∧ validEnabled cfg
    · by_cases ha : cfg.valid_adapt = true
      · by_cases he : verr s.evals > s.validation_error
        · by_cases hret : s.num_retries = cfg.valid_retries
          · rw [loopIter_rollback_brk cfg verr vloss uloss s hc.1 hc.2 ha he
              hret]
            exact ⟨rfl, Or.inr rfl⟩
          · rw [loopIter_rollback_cont cfg verr vloss uloss s hc.1 hc.2 ha he
              hret]
            exact ⟨rfl, Or.inr rfl⟩
        · rw [loopIter_accept cfg verr vloss uloss s hc.1 hc.2 ha he]
          obtain ⟨f1, _, _, _, _, _, f7, _, _, _⟩ := checkpointStep_fields cfg
            { s with step := s.step + 1,
                     cursor := get_batch_cursor s.cursor,
                     updates := s.updates + 1,
                     evals := s.evals + 1,
                     validation_error := verr s.evals,
                     validation_step := s.step + 1,
                     num_retries := 0,
                     loss_lst := s.loss_lst ++ [(s.step, uloss s.updates)],
                     val_error_list :=
                       s.val_error_list ++ [(s.step + 1, verr s.evals)],
                     val_loss_lst :=
                       s.val_loss_lst ++ [(s.step + 1, vloss s.evals)],
                     events := s.events
                       ++ [Event.getBatch, Event.update, Event.evaluate,
                           Event.saveValidated] }
          exact ⟨f7, Or.inl f1⟩
      · have ha' : cfg.valid_adapt = false := by
          cases hb : cfg.valid_adapt
          · rfl
          · exact absurd hb ha
        rw [loopIter_no_adapt cfg verr vloss uloss s hc.1 hc.2 ha']
        obtain ⟨f1, _, _, _, _, _, f7, _, _, _⟩ := checkpointStep_fields cfg
          { s with step := s.step + 1,
                   cursor := get_batch_cursor s.cursor,
                   updates := s.updates + 1,
                   evals := s.evals + 1,
                   loss_lst := s.loss_lst ++ [(s.step, uloss s.updates)],
                   val_error_list :=
                     s.val_error_list ++ [(s.step + 1, verr s.evals)],
                   val_loss_lst :=
                     s.val_loss_lst ++ [(s.step + 1, vloss s.evals)],
                   events := s.events
                     ++ [Event.getBatch, Event.update, Event.evaluate] }
        exact ⟨f7, Or.inl f1⟩
    · rw [loopIter_no_valid cfg verr vloss uloss s hc]
      obtain ⟨f1, _, _, _, _, _, f7, _, _, _⟩ := checkpointStep_fields cfg
        { s with step := s.step + 1,
                 cursor := get_batch_cursor s.cursor,
                 updates := s.updates + 1,
                 loss_lst := s.loss_lst ++ [(s.step, uloss s.updates)],
                 events := s.events ++ [Event.getBatch, Event.update] }
      exact ⟨f7, Or.inl f1⟩
  · intro hss s hs
    exact (reachable_inv cfg verr vloss uloss s hs).2.2.2.1 hss

/-- C8, witness: in a well-formed run (`starting_step ≤ num_steps`) the
bound holds at the loop-entry state. -/
theorem claim_C8_witness :
    (initState cfgCheck2 constZero constZero).step ≤ numSteps cfgCheck2 := by
  have h := claim_C8_step_invariant cfgCheck2 constZero constZero constZero
  exact h.2.2 (by decide) _ Reachable.init

/-- C5: for every reader yielding a finite utterance list before wrapping,
the decode loop terminates having fed exactly the pre-wrap matrices (in
order) to the decoding computation — the wrapped-flagged call is a
sentinel, not data — and the returned map has an entry exactly for the
yielded utterance ids, each entry being the decoding computation's output
on a matrix yielded for that id. -/
theorem claim_C5_decode_complete {α β γ : Type} [DecidableEq α]
    (dec : β → γ) (utts : List (α × β)) :
    (decode dec utts).2 = utts.map Prod.snd ∧
      (∀ a, ((decode dec utts).1 a).isSome = true ↔
        a ∈ utts.map Prod.fst) ∧
      (∀ a g, (decode dec utts).1 a = some g →
        ∃ m, (a, m) ∈ utts ∧ g = dec m) := by
  refine ⟨?_, ?_, ?_⟩
  · show (decodeLoop dec utts (fun _ => none) []).2 = utts.map Prod.snd
    rw [decodeLoop_snd]
    exact List.nil_append _
  · intro a
    constructor
    · intro hsome
      by_contra hmem
      have h0 := decodeLoop_not_mem dec utts (fun _ => none) [] a hmem
      rw [show (decode dec utts).1 a = none from h0] at hsome
      exact absurd hsome (by simp)
    · intro hmem
      obtain ⟨m, _, heq⟩ := decodeLoop_mem dec utts (fun _ => none) [] a hmem
      show ((decodeLoop dec utts (fun _ => none) []).1 a).isSome = true
      rw [heq]
      rfl
  · intro a g hg
    by_cases hmem : a ∈ utts.map Prod.fst
    · obtain ⟨m, hm, heq⟩ := decodeLoop_mem dec utts (fun _ => none) [] a hmem
      refine ⟨m, hm, ?_⟩
      exact (Option.some_injective _ ((heq.symm.trans hg))).symm
    · have h0 := decodeLoop_not_mem dec utts (fun _ => none) [] a hmem
      rw [show (decode dec utts).1 a = none from h0] at hg
      exact absurd hg (by simp)

/-- C5, witness: two utterances, successor as the decoding computation. -/
theorem claim_C5_witness :
    (decode Nat.succ [((0 : Nat), (5 : Nat)), (1, 7)]).2 = [5, 7] ∧
      ((decode Nat.succ [((0 : Nat), (5 : Nat)), (1, 7)]).1 0).isSome =
        true := by
  have h := claim_C5_decode_complete Nat.succ [((0 : Nat), (5 : Nat)), (1, 7)]
  exact ⟨h.1.trans (by decide), (h.2.1 0).mpr (by decide)⟩

/-- C9, counterexample: with validation disabled and `starting_step = 2`
while `num_steps = 1`, the loop body never runs and the run exits with
`step = 2 ≠ num_steps`, so the run does not always exit with
`step == num_steps`. -/
theorem claim_C9_counterexample :
    ¬ ((train cfgResumeHigh2 constZero constZero constZero 2).map
        TrainState.step = some (numSteps cfgResumeHigh2)) := by
  decide

/-- C9, amended: when validation is disabled (`valid_batches ≤ 0`) and the
run is well formed (`starting_step ≤ num_steps`, and the validation and
checkpoint frequencies are positive, which the code's modulus operations
require to run at all), the loop performs exactly
`num_steps - starting_step` optimization updates and exits with
`step = num_steps`; no evaluation, rollback, learning-rate halving or
`validated` checkpoint ever occurs, and both validation logs are empty —
regardless of the `valid_adapt` and `valid_retries` settings. -/
theorem claim_C9_disabled_validation_run (cfg : Config)
    (verr vloss uloss : Nat → Int)
    (hnv : cfg.valid_batches ≤ 0) (hss : cfg.starting_step ≤ numSteps cfg)
    (hvf : 0 < cfg.valid_frequency) (hcf : 0 < cfg.check_freq) :
    ∃ final,
      train cfg verr vloss uloss (numSteps cfg - cfg.starting_step + 1) =
          some final ∧
        final.step = numSteps cfg ∧
        final.updates = numSteps cfg - cfg.starting_step ∧
        final.val_error_list = [] ∧
        final.val_loss_lst = [] ∧
        Event.evaluate ∉ final.events ∧
        Event.saveValidated ∉ final.events ∧
        Event.returnBatch ∉ final.events ∧
        Event.halveLR ∉ final.events ∧
        Event.restoreValidated ∉ final.events := by
  have hnv' : ¬ validEnabled cfg := by
    unfold validEnabled
    omega
  have hstep : (initState cfg verr vloss).step = cfg.starting_step := by
    unfold initState
    rw [if_neg hnv']
  have hupd : (initState cfg verr vloss).updates = 0 := by
    unfold initState
    rw [if_neg hnv']
  have hvel : (initState cfg verr vloss).val_error_list = [] := by
    unfold initState
    rw [if_neg hnv']
  have hvll : (initState cfg verr vloss).val_loss_lst = [] := by
    unfold initState
    rw [if_neg hnv']
  obtain ⟨f, hrun, hfs, hfu, hfe, hfl, hfev⟩ :=
    runLoop_novalid cfg verr vloss uloss hnv'
      (numSteps cfg - cfg.starting_step) (initState cfg verr vloss)
      (by rw [hstep]) (by rw [hstep]; exact hss)
  have hchar : ∀ ev ∈ f.events, ev = Event.skipBatch ∨
      ev = Event.restoreStep cfg.starting_step ∨ ev = Event.getBatch ∨
      ev = Event.update ∨ ∃ N, ev = Event.saveStep N := by
    intro ev hev
    rcases hfev ev hev with hin | h | h | h
    · rcases initState_events_novalid cfg verr vloss hnv' ev hin with h | h
      · exact Or.inl h
      · exact Or.inr (Or.inl h)
    · exact Or.inr (Or.inr (Or.inl h))
    · exact Or.inr (Or.inr (Or.inr (Or.inl h)))
    · exact Or.inr (Or.inr (Or.inr (Or.inr h)))
  have hnone : ∀ ev, (ev = Event.evaluate ∨ ev = Event.saveValidated ∨
      ev = Event.returnBatch ∨ ev = Event.halveLR ∨
      ev = Event.restoreValidated) →
      ev ∉ f.events ++ [Event.saveFinal] := by
    intro ev hor hmem
    rcases List.mem_append.mp hmem with h | h
    · rcases hchar ev h with h2 | h2 | h2 | h2 | ⟨N, h2⟩ <;>
        rcases hor with rfl | rfl | rfl | rfl | rfl <;> simp at h2
    · simp at h
      rcases hor with rfl | rfl | rfl | rfl | rfl <;> simp at h
  refine ⟨{ f with events := f.events ++ [Event.saveFinal] }, ?_, hfs, ?_,
    ?_, ?_, ?_, ?_, ?_, ?_, ?_⟩
  · unfold train
    rw [hrun]
    rfl
  · show f.updates = numSteps cfg - cfg.starting_step
    rw [hfu, hupd]
    omega
  · show f.val_error_list = []
    rw [hfe, hvel]
  · show f.val_loss_lst = []
    rw [hfl, hvll]
  · exact hnone Event.evaluate (Or.inl rfl)
  · exact hnone Event.saveValidated (Or.inr (Or.inl rfl))
  · exact hnone Event.returnBatch (Or.inr (Or.inr (Or.inl rfl)))
  · exact hnone Event.halveLR (Or.inr (Or.inr (Or.inr (Or.inl rfl))))
  · exact hnone Event.restoreValidated
      (Or.inr (Or.inr (Or.inr (Or.inr rfl))))

/-- C9, witness: a disabled-validation run over 3 batches and 2 epochs
resuming from step 1 exits at `step = num_steps = 6`. -/
theorem claim_C9_witness :
    ∃ final, train cfgNoValid constZero constZero constZero
        (numSteps cfgNoValid - cfgNoValid.starting_step + 1) = some final ∧
      final.step = numSteps cfgNoValid := by
  obtain ⟨final, h1, h2, _⟩ := claim_C9_disabled_validation_run cfgNoValid
    constZero constZero constZero (by decide) (by decide) (by decide)
    (by decide)
  exact ⟨final, h1, h2⟩

/-- C10: if the Utterance Reader wraps on the very first call (it yields
no utterance before the sentinel), decode returns the empty map and the
decoding computation is never invoked. -/
theorem claim_C10_wrap_first_empty {α β γ : Type} [DecidableEq α]
    (dec : β → γ) :
    (∀ a, (decode dec ([] : List (α × β))).1 a = none) ∧
      (decode dec ([] : List (α × β))).2 = [] :=
  ⟨fun _ => rfl, rfl⟩

/-- C10, witness: concrete instance at natural-number ids and matrices. -/
theorem claim_C10_witness :
    (decode Nat.succ ([] : List (Nat × Nat))).1 3 = none :=
  (claim_C10_wrap_first_empty Nat.succ).1 3

end LasNet
